import Mathlib

/-!
Verification of the Optics video-to-scene pipeline.

The development shallowly embeds the Python sources:
* `detect_green_dot.py`   (per-frame marker locator, standalone scanner)
* `process_video_to_scenes.py` (pipeline scanner, mapper, scene emitter)
* `batch_generate_json.py` (batch emitter driven by a saved coordinate file)

Python arithmetic on `int` is exact and is embedded as `Int`/`Nat`.
Python `float` arithmetic (the sampler's `step = N / K`, `int(i * step)`,
and the centroid divisions) is IEEE-754 binary64; it is embedded exactly as
rational numbers together with `round64`, the round-to-nearest, ties-to-even
rounding to a 53-bit significand.  Overflow and subnormals are irrelevant at
the magnitudes the programs produce and are not modelled.
-/

namespace Optics

/-- Floor of the base-2 logarithm of a positive rational: the unique `e`
with `2^e ≤ q < 2^(e+1)`.  (Junk value for `q ≤ 0`.) -/
def qlog2 (q : ℚ) : ℤ :=
  let a := q.num.toNat
  let b := q.den
  let e0 : ℤ := (Nat.log 2 a : ℤ) - (Nat.log 2 b : ℤ)
  if (2 : ℚ) ^ e0 ≤ q then e0 else e0 - 1

/-- Round a positive rational to the nearest binary64 value
(53-bit significand, round half to even).  Junk value for `q ≤ 0`. -/
def roundPos64 (q : ℚ) : ℚ :=
  let e : ℤ := qlog2 q - 52
  let m : ℚ := q / 2 ^ e
  let n : ℤ := ⌊m⌋
  let r : ℚ := m - n
  let n' : ℤ := if r < 1/2 then n else if 1/2 < r then n + 1 else if 2 ∣ n then n else n + 1
  (n' : ℚ) * 2 ^ e

/-- IEEE-754 binary64 rounding (round to nearest, ties to even) of an exact
rational value. -/
def round64 (q : ℚ) : ℚ :=
  if 0 < q then roundPos64 q
  else if q < 0 then -roundPos64 (-q)
  else 0

/-- Python `int(...)` applied to a (finite) float: truncation toward zero. -/
def pyInt (q : ℚ) : ℤ :=
  if q < 0 then -⌊-q⌋ else ⌊q⌋

theorem round64_zero : round64 0 = 0 := by
  simp [round64]

theorem qlog2_spec (q : ℚ) (hq : 0 < q) :
    (2 : ℚ) ^ qlog2 q ≤ q ∧ q < 2 ^ (qlog2 q + 1) := by
  have hnum : 0 < q.num := Rat.num_pos.mpr hq
  set a : ℕ := q.num.toNat with ha
  have ha0 : a ≠ 0 := by
    simp only [ha]
    omega
  set b : ℕ := q.den with hb
  have hb0 : b ≠ 0 := q.den_nz
  have haq : (a : ℚ) = (q.num : ℚ) := by
    simp only [ha]
    exact_mod_cast congrArg (fun z : ℤ => (z : ℚ)) (Int.toNat_of_nonneg hnum.le)
  have hqa : q = (a : ℚ) / (b : ℚ) := by
    rw [haq, hb]
    exact (Rat.num_div_den q).symm
  have hbpos : (0 : ℚ) < (b : ℚ) := by
    exact_mod_cast Nat.pos_of_ne_zero hb0
  have hapos : (0 : ℚ) < (a : ℚ) := by
    exact_mod_cast Nat.pos_of_ne_zero ha0
  set La : ℕ := Nat.log 2 a with hLa
  set Lb : ℕ := Nat.log 2 b with hLb
  have hA1 : (2 : ℕ) ^ La ≤ a := Nat.pow_log_le_self 2 ha0
  have hA2 : a < 2 ^ (La + 1) := Nat.lt_pow_succ_log_self (by norm_num) a
  have hB1 : (2 : ℕ) ^ Lb ≤ b := Nat.pow_log_le_self 2 hb0
  have hB2 : b < 2 ^ (Lb + 1) := Nat.lt_pow_succ_log_self (by norm_num) b
  have hA1' : (2 : ℚ) ^ (La : ℤ) ≤ (a : ℚ) := by
    rw [zpow_natCast]
    exact_mod_cast hA1
  have hA2' : (a : ℚ) < 2 ^ ((La : ℤ) + 1) := by
    have : ((La : ℤ) + 1) = ((La + 1 : ℕ) : ℤ) := by push_cast; ring
    rw [this, zpow_natCast]
    exact_mod_cast hA2
  have hB1' : (2 : ℚ) ^ (Lb : ℤ) ≤ (b : ℚ) := by
    rw [zpow_natCast]
    exact_mod_cast hB1
  have hB2' : (b : ℚ) < 2 ^ ((Lb : ℤ) + 1) := by
    have : ((Lb : ℤ) + 1) = ((Lb + 1 : ℕ) : ℤ) := by push_cast; ring
    rw [this, zpow_natCast]
    exact_mod_cast hB2
  set e0 : ℤ := (La : ℤ) - (Lb : ℤ) with he0
  -- upper bound : q < 2 ^ (e0 + 1)
  have hupper : q < 2 ^ (e0 + 1) := by
    rw [hqa]
    rw [div_lt_iff hbpos]
    calc (a : ℚ) < 2 ^ ((La : ℤ) + 1) := hA2'
    _ ≤ 2 ^ (e0 + 1) * (b : ℚ) := by
        rw [he0]
        have h2 : (2 : ℚ) ^ ((La : ℤ) + 1) = 2 ^ ((La : ℤ) - (Lb : ℤ) + 1) * 2 ^ (Lb : ℤ) := by
          rw [← zpow_add₀ (by norm_num : (2 : ℚ) ≠ 0)]
          ring_nf
        rw [h2]
        have := mul_le_mul_of_nonneg_left hB1'
          (le_of_lt (zpow_pos (by norm_num : (0:ℚ) < 2) ((La : ℤ) - (Lb : ℤ) + 1)))
        linarith
  -- lower bound : 2 ^ (e0 - 1) < q
  have hlower : (2 : ℚ) ^ (e0 - 1) < q := by
    rw [hqa]
    rw [lt_div_iff hbpos]
    calc (2 : ℚ) ^ (e0 - 1) * (b : ℚ) < 2 ^ (e0 - 1) * 2 ^ ((Lb : ℤ) + 1) := by
          have := zpow_pos (by norm_num : (0:ℚ) < 2) (e0 - 1)
          exact mul_lt_mul_of_pos_left hB2' this
    _ = 2 ^ (La : ℤ) := by
          rw [← zpow_add₀ (by norm_num : (2 : ℚ) ≠ 0)]
          congr 1
          rw [he0]
          ring
    _ ≤ (a : ℚ) := hA1'
  unfold qlog2
  simp only [← ha, ← hb, ← hLa, ← hLb, ← he0]
  by_cases hcase : (2 : ℚ) ^ e0 ≤ q
  · rw [if_pos hcase]
    exact ⟨hcase, hupper⟩
  · rw [if_neg hcase]
    constructor
    · exact hlower.le
    · have : e0 - 1 + 1 = e0 := by ring
      rw [this]
      exact lt_of_not_le hcase

theorem qlog2_unique (q : ℚ) (hq : 0 < q) (e : ℤ)
    (h1 : (2 : ℚ) ^ e ≤ q) (h2 : q < 2 ^ (e + 1)) : qlog2 q = e := by
  obtain ⟨g1, g2⟩ := qlog2_spec q hq
  by_contra hne
  rcases lt_or_gt_of_ne hne with hlt | hgt
  · have : qlog2 q + 1 ≤ e := by omega
    have : (2 : ℚ) ^ (qlog2 q + 1) ≤ 2 ^ e :=
      zpow_le_zpow_right₀ (by norm_num) this
    linarith
  · have : e + 1 ≤ qlog2 q := by omega
    have : (2 : ℚ) ^ (e + 1) ≤ 2 ^ (qlog2 q) :=
      zpow_le_zpow_right₀ (by norm_num) this
    linarith

theorem round64_of_pos (q : ℚ) (hq : 0 < q) : round64 q = roundPos64 q := by
  simp [round64, hq]

theorem two_zpow_pos (e : ℤ) : (0 : ℚ) < 2 ^ e :=
  zpow_pos (by norm_num) e

theorem qlog2_eq_of_window (q : ℚ) (E : ℤ)
    (h1 : (2 : ℚ) ^ (E + 52) ≤ q) (h2 : q < 2 ^ (E + 53)) : qlog2 q = E + 52 := by
  have hq : 0 < q := lt_of_lt_of_le (two_zpow_pos (E + 52)) h1
  apply qlog2_unique q hq
  · exact h1
  · rw [show E + 52 + 1 = E + 53 by ring]
    exact h2

theorem roundPos64_body (q : ℚ) (E : ℤ) (hE : qlog2 q = E + 52) :
    roundPos64 q =
      ((if q / 2 ^ E - (⌊q / 2 ^ E⌋ : ℚ) < 1 / 2 then ⌊q / 2 ^ E⌋
        else if 1 / 2 < q / 2 ^ E - (⌊q / 2 ^ E⌋ : ℚ) then ⌊q / 2 ^ E⌋ + 1
        else if 2 ∣ ⌊q / 2 ^ E⌋ then ⌊q / 2 ^ E⌋ else ⌊q / 2 ^ E⌋ + 1 : ℤ) : ℚ) * 2 ^ E := by
  unfold roundPos64
  rw [hE]
  rw [show E + 52 - 52 = E by ring]

/-- Evaluation rule for `roundPos64` when the value rounds down
(`q` lies in the lower half of its grid cell `[n·2^E, (n+1)·2^E)`). -/
theorem roundPos64_eval_down (q : ℚ) (E n : ℤ)
    (h1 : (2 : ℚ) ^ (E + 52) ≤ q) (h2 : q < 2 ^ (E + 53))
    (hn1 : (n : ℚ) * 2 ^ E ≤ q) (hn2 : q < (n : ℚ) * 2 ^ E + 2 ^ E / 2) :
    roundPos64 q = (n : ℚ) * 2 ^ E := by
  have hE := qlog2_eq_of_window q E h1 h2
  have hEpos := two_zpow_pos E
  have hm1 : (n : ℚ) ≤ q / 2 ^ E := (le_div_iff₀ hEpos).mpr hn1
  have hm2 : q / 2 ^ E < (n : ℚ) + 1 / 2 := by
    rw [div_lt_iff₀ hEpos]
    calc q < (n : ℚ) * 2 ^ E + 2 ^ E / 2 := hn2
    _ = ((n : ℚ) + 1 / 2) * 2 ^ E := by ring
  have hfloor : ⌊q / 2 ^ E⌋ = n := by
    apply Int.floor_eq_iff.mpr
    constructor
    · exact_mod_cast hm1
    · push_cast
      linarith
  rw [roundPos64_body q E hE, hfloor]
  have hr : q / 2 ^ E - (n : ℚ) < 1 / 2 := by linarith
  rw [if_pos hr]

/-- Evaluation rule for `roundPos64` when the value rounds up
(`q` lies strictly in the upper half of its grid cell). -/
theorem roundPos64_eval_up (q : ℚ) (E n : ℤ)
    (h1 : (2 : ℚ) ^ (E + 52) ≤ q) (h2 : q < 2 ^ (E + 53))
    (hn1 : (n : ℚ) * 2 ^ E + 2 ^ E / 2 < q) (hn2 : q < ((n : ℚ) + 1) * 2 ^ E) :
    roundPos64 q = ((n : ℚ) + 1) * 2 ^ E := by
  have hE := qlog2_eq_of_window q E h1 h2
  have hEpos := two_zpow_pos E
  have hm1 : (n : ℚ) + 1 / 2 < q / 2 ^ E := by
    rw [lt_div_iff₀ hEpos]
    calc ((n : ℚ) + 1 / 2) * 2 ^ E = (n : ℚ) * 2 ^ E + 2 ^ E / 2 := by ring
    _ < q := hn1
  have hm2 : q / 2 ^ E < (n : ℚ) + 1 := by
    rw [div_lt_iff₀ hEpos]
    exact hn2
  have hfloor : ⌊q / 2 ^ E⌋ = n := by
    apply Int.floor_eq_iff.mpr
    constructor
    · push_cast
      linarith
    · push_cast
      linarith
  rw [roundPos64_body q E hE, hfloor]
  have hr1 : ¬ (q / 2 ^ E - (n : ℚ) < 1 / 2) := by
    push_neg
    linarith
  have hr2 : (1 : ℚ) / 2 < q / 2 ^ E - (n : ℚ) := by linarith
  rw [if_neg hr1, if_pos hr2]
  push_cast
  ring

/-- Evaluation rule for `roundPos64` at an exact tie with an even lower
neighbour: round half to even keeps `n`. -/
theorem roundPos64_eval_tie_even (q : ℚ) (E n : ℤ) (heven : 2 ∣ n)
    (h1 : (2 : ℚ) ^ (E + 52) ≤ q) (h2 : q < 2 ^ (E + 53))
    (heq : q = (n : ℚ) * 2 ^ E + 2 ^ E / 2) :
    roundPos64 q = (n : ℚ) * 2 ^ E := by
  have hE := qlog2_eq_of_window q E h1 h2
  have hEpos := two_zpow_pos E
  have hEne : (2 : ℚ) ^ E ≠ 0 := ne_of_gt hEpos
  have hm : q / 2 ^ E = (n : ℚ) + 1 / 2 := by
    rw [heq]
    field_simp
    ring
  have hfloor : ⌊q / 2 ^ E⌋ = n := by
    rw [hm]
    apply Int.floor_eq_iff.mpr
    constructor
    · push_cast
      linarith
    · push_cast
      linarith
  rw [roundPos64_body q E hE, hfloor, hm]
  have hr1 : ¬ ((n : ℚ) + 1 / 2 - (n : ℚ) < 1 / 2) := by
    push_neg
    linarith
  have hr2 : ¬ ((1 : ℚ) / 2 < (n : ℚ) + 1 / 2 - (n : ℚ)) := by
    push_neg
    linarith
  rw [if_neg hr1, if_neg hr2, if_pos heven]

/-- `roundPos64` is the identity on any positive value that is already
representable on the grid of its own binade. -/
theorem roundPos64_eval_exact (q : ℚ) (E n : ℤ)
    (h1 : (2 : ℚ) ^ (E + 52) ≤ q) (h2 : q < 2 ^ (E + 53))
    (heq : q = (n : ℚ) * 2 ^ E) :
    roundPos64 q = q := by
  have h := roundPos64_eval_down q E n h1 h2 (le_of_eq heq.symm)
    (by
      have := two_zpow_pos E
      rw [heq]
      linarith)
  rw [h, heq]

/-- Half-ulp bound: rounding a positive value moves it by at most half the
spacing of its binade's grid. -/
theorem roundPos64_near (q : ℚ) (hq : 0 < q) :
    |roundPos64 q - q| ≤ 2 ^ (qlog2 q - 53) := by
  set e : ℤ := qlog2 q - 52 with he
  have hE : qlog2 q = e + 52 := by rw [he]; ring
  have hepos := two_zpow_pos e
  have hene : (2 : ℚ) ^ e ≠ 0 := ne_of_gt hepos
  rw [roundPos64_body q e hE]
  set m : ℚ := q / 2 ^ e with hm
  have hqm : q = m * 2 ^ e := by
    rw [hm]
    field_simp
  set n : ℤ := ⌊m⌋ with hn
  have hr0 : (0 : ℚ) ≤ m - n := by
    have := Int.floor_le m
    linarith
  have hr1 : m - (n : ℚ) < 1 := by
    have := Int.lt_floor_add_one m
    linarith
  have hhalf : (2 : ℚ) ^ (qlog2 q - 53) = 2 ^ e / 2 := by
    rw [show qlog2 q - 53 = e - 1 by rw [he]; ring]
    rw [zpow_sub₀ (by norm_num : (2:ℚ) ≠ 0)]
    norm_num
  rw [hhalf]
  by_cases hc1 : m - (n : ℚ) < 1 / 2
  · rw [if_pos hc1]
    rw [hqm]
    rw [show (n : ℚ) * 2 ^ e - m * 2 ^ e = -((m - n) * 2 ^ e) by ring, abs_neg]
    rw [abs_of_nonneg (by positivity)]
    calc (m - (n : ℚ)) * 2 ^ e ≤ 1 / 2 * 2 ^ e := by
          apply mul_le_mul_of_nonneg_right _ hepos.le
          linarith
    _ = 2 ^ e / 2 := by ring
  · rw [if_neg hc1]
    by_cases hc2 : (1 : ℚ) / 2 < m - (n : ℚ)
    · rw [if_pos hc2]
      rw [hqm]
      rw [show ((n + 1 : ℤ) : ℚ) * 2 ^ e - m * 2 ^ e = ((n : ℚ) + 1 - m) * 2 ^ e by push_cast; ring]
      rw [abs_of_nonneg (by
        apply mul_nonneg _ hepos.le
        linarith)]
      calc ((n : ℚ) + 1 - m) * 2 ^ e ≤ 1 / 2 * 2 ^ e := by
            apply mul_le_mul_of_nonneg_right _ hepos.le
            linarith
      _ = 2 ^ e / 2 := by ring
    · have heq : m - (n : ℚ) = 1 / 2 := by
        push_neg at hc1 hc2
        linarith
      by_cases hc3 : 2 ∣ n
      · rw [if_neg (by push_neg; linarith), if_pos hc3]
        rw [hqm]
        rw [show (n : ℚ) * 2 ^ e - m * 2 ^ e = -((m - n) * 2 ^ e) by ring, abs_neg]
        rw [heq]
        rw [abs_of_nonneg (by positivity)]
        linarith
      · rw [if_neg (by push_neg; linarith), if_neg hc3]
        rw [hqm]
        rw [show ((n + 1 : ℤ) : ℚ) * 2 ^ e - m * 2 ^ e = ((n : ℚ) + 1 - m) * 2 ^ e by push_cast; ring]
        have : (n : ℚ) + 1 - m = 1 / 2 := by linarith
        rw [this]
        rw [abs_of_nonneg (by positivity)]
        linarith

/-- Relative error of binary64 rounding on nonnegative values:
`|fl(q) − q| ≤ q·2⁻⁵³`. -/
theorem round64_near (q : ℚ) (hq : 0 ≤ q) :
    |round64 q - q| ≤ q / 2 ^ 53 := by
  rcases eq_or_lt_of_le hq with h0 | hpos
  · rw [← h0, round64_zero]
    norm_num
  · rw [round64_of_pos q hpos]
    calc |roundPos64 q - q| ≤ 2 ^ (qlog2 q - 53) := roundPos64_near q hpos
    _ = 2 ^ qlog2 q / 2 ^ (53 : ℕ) := by
        rw [zpow_sub₀ (by norm_num : (2:ℚ) ≠ 0)]
        norm_num
    _ ≤ q / 2 ^ (53 : ℕ) := by
        apply div_le_div_of_nonneg_right (qlog2_spec q hpos).1
        norm_num
    _ = q / 2 ^ 53 := by norm_num

theorem round64_le (q : ℚ) (hq : 0 ≤ q) : round64 q ≤ q + q / 2 ^ 53 := by
  have := round64_near q hq
  have := abs_le.mp this
  linarith [this.2]

theorem round64_ge (q : ℚ) (hq : 0 ≤ q) : q - q / 2 ^ 53 ≤ round64 q := by
  have := round64_near q hq
  have := abs_le.mp this
  linarith [this.1]

theorem round64_nonneg (q : ℚ) (hq : 0 ≤ q) : 0 ≤ round64 q := by
  have := round64_ge q hq
  have h53 : (0:ℚ) < 2 ^ 53 := by positivity
  nlinarith [div_le_self hq (by norm_num : (1:ℚ) ≤ 2 ^ 53)]

/-- Binary64 rounding is the identity on natural numbers up to `2^53`
(they are exactly representable). -/
theorem round64_natCast (n : ℕ) (h : n ≤ 2 ^ 53) : round64 (n : ℚ) = n := by
  rcases Nat.eq_zero_or_pos n with h0 | hpos
  · rw [h0]
    exact_mod_cast round64_zero
  have hn0 : n ≠ 0 := Nat.pos_iff_ne_zero.mp hpos
  have hqpos : (0 : ℚ) < n := by exact_mod_cast hpos
  rw [round64_of_pos _ hqpos]
  set L : ℕ := Nat.log 2 n with hL
  have hL1 : (2 : ℕ) ^ L ≤ n := Nat.pow_log_le_self 2 hn0
  have hL2 : n < 2 ^ (L + 1) := Nat.lt_pow_succ_log_self (by norm_num) n
  have hL53 : L ≤ 53 := by
    have : Nat.log 2 n ≤ Nat.log 2 (2 ^ 53) := Nat.log_mono_right h
    rwa [Nat.log_pow (by norm_num)] at this
  rcases Nat.lt_or_ge L 53 with hcase | hcase
  · -- L ≤ 52 : n is an integer multiple of 2^(L-52)
    have hwin1 : (2 : ℚ) ^ (((L : ℤ) - 52) + 52) ≤ (n : ℚ) := by
      rw [show ((L : ℤ) - 52) + 52 = (L : ℤ) by ring, zpow_natCast]
      exact_mod_cast hL1
    have hwin2 : (n : ℚ) < 2 ^ (((L : ℤ) - 52) + 53) := by
      rw [show ((L : ℤ) - 52) + 53 = ((L + 1 : ℕ) : ℤ) by push_cast; ring, zpow_natCast]
      exact_mod_cast hL2
    apply roundPos64_eval_exact (n : ℚ) ((L : ℤ) - 52) ((n : ℤ) * 2 ^ (52 - L)) hwin1 hwin2
    push_cast
    rw [mul_assoc, ← zpow_natCast (2 : ℚ) (52 - L), ← zpow_add₀ (by norm_num : (2:ℚ) ≠ 0)]
    rw [show ((52 - L : ℕ) : ℤ) + ((L : ℤ) - 52) = 0 by omega]
    norm_num
  · -- L = 53 : then n = 2^53 exactly
    have hL53' : L = 53 := le_antisymm hL53 hcase
    have hn : n = 2 ^ 53 := by
      apply le_antisymm h
      calc (2:ℕ) ^ 53 = 2 ^ L := by rw [hL53']
      _ ≤ n := hL1
    subst hn
    apply roundPos64_eval_exact _ 1 (2 ^ 52)
    · norm_num
    · norm_num
    · push_cast
      norm_num

/-! ### Data model: detections and trajectories -/

/-- One marker detection, `{"frame": f, "x": x, "y": y}` in the Python
sources: 1-based frame ordinal plus integer pixel centroid. -/
structure Detection where
  frame : ℕ
  x : ℤ
  y : ℤ
deriving DecidableEq, Repr, Inhabited

/-- The sampling index Python computes in the strided branch:
`int(i * step)` with `step = N / K`, all of it binary64 float arithmetic
(`process_video_to_scenes.py` lines 124–126; the integer `i` is converted
to float before the multiplication). -/
def pyIdx (i N K : ℕ) : ℕ :=
  (pyInt (round64 (round64 (i : ℚ) * round64 ((N : ℚ) / (K : ℚ))))).toNat

/-- Uniform sampling of the trajectory (`process_video_to_scenes.py`
lines 115–128, identically `detect_green_dot.py` lines 90–102): when the
number of valid frames is at most `num_samples` all are kept, otherwise
`num_samples` entries are taken at the float-computed stride indices. -/
def sample (traj : List Detection) (K : ℕ) : List Detection :=
  if traj.length ≤ K then traj
  else (List.range K).map (fun i => traj.getD (pyIdx i traj.length K) default)

/-- Evaluation helper for `pyIdx`: once the rounded product is known,
`pyIdx` is its floor. -/
theorem pyIdx_eval (i N K : ℕ) (v : ℚ) (n : ℕ)
    (hv : round64 (round64 (i : ℚ) * round64 ((N : ℚ) / (K : ℚ))) = v)
    (h1 : (n : ℚ) ≤ v) (h2 : v < n + 1) : pyIdx i N K = n := by
  unfold pyIdx
  rw [hv]
  have hnn : (0 : ℚ) ≤ v := le_trans (by positivity) h1
  unfold pyInt
  rw [if_neg (not_lt.mpr hnn)]
  have hfloor : ⌊v⌋ = (n : ℤ) := by
    apply Int.floor_eq_iff.mpr
    constructor
    · exact_mod_cast h1
    · push_cast
      exact_mod_cast h2
  rw [hfloor]
  exact Int.toNat_natCast n

/-- Convenience form of `round64_natCast` for numerals. -/
theorem round64_eq_self_of_nat (q : ℚ) (n : ℕ) (hq : q = (n : ℚ)) (h : n ≤ 2 ^ 53) :
    round64 q = q := by
  rw [hq, round64_natCast n h]

/-- Binary64 rounding commutes with negation (the rounding is sign
symmetric, ties-to-even included). -/
theorem round64_neg (q : ℚ) : round64 (-q) = -round64 q := by
  rcases lt_trichotomy q 0 with h | h | h
  · unfold round64
    rw [if_pos (by linarith : (0 : ℚ) < -q), if_neg (not_lt.mpr h.le), if_pos h, neg_neg]
  · rw [h]
    rw [neg_zero, round64_zero, neg_zero]
  · unfold round64
    rw [if_neg (by linarith : ¬ (0 : ℚ) < -q), if_pos (by linarith : -q < (0 : ℚ)),
      if_pos h, neg_neg]

/-- Binary64 rounding is the identity on integers of magnitude up to
`2^53`. -/
theorem round64_intCast (n : ℤ) (h : n.natAbs ≤ 2 ^ 53) :
    round64 ((n : ℚ)) = (n : ℚ) := by
  rcases le_or_lt 0 n with hn | hn
  · have h1 : ((n.toNat : ℕ) : ℚ) = (n : ℚ) := by
      exact_mod_cast Int.toNat_of_nonneg hn
    rw [← h1, round64_natCast n.toNat (by omega)]
  · have h1 : (((-n).toNat : ℕ) : ℚ) = -(n : ℚ) := by
      have h2 : (((-n).toNat : ℕ) : ℤ) = -n := Int.toNat_of_nonneg (by omega)
      exact_mod_cast h2
    have h3 : (n : ℚ) = -((((-n).toNat : ℕ)) : ℚ) := by
      rw [h1]
      ring
    rw [h3, round64_neg, round64_natCast (-n).toNat (by omega)]

/-! Concrete binary64 evaluations used by the sampler claims.

`fl(30/22) = 6141272219141585·2⁻⁵²` (rounded down, the true value has
fractional part 5/11 of an ulp), and
`fl(11 · fl(30/22)) = 8444249301319679·2⁻⁴⁹ ≈ 14.999999999999998`, so
Python's `int(11 * (30/22))` is `14` while `⌊11·30/22⌋ = 15`. -/

theorem fl_30_div_22 : round64 ((30 : ℚ) / 22) = 6141272219141585 / 2 ^ 52 := by
  rw [round64_of_pos _ (by norm_num)]
  have h := roundPos64_eval_down ((30 : ℚ) / 22) (-52) 6141272219141585
    (by norm_num) (by norm_num) (by norm_num) (by norm_num)
  rw [h]
  norm_num

theorem fl_11_mul_step : round64 ((11 : ℚ) * (6141272219141585 / 2 ^ 52)) =
    8444249301319679 / 2 ^ 49 := by
  rw [round64_of_pos _ (by norm_num)]
  have h := roundPos64_eval_down ((11 : ℚ) * (6141272219141585 / 2 ^ 52)) (-49) 8444249301319679
    (by norm_num) (by norm_num) (by norm_num) (by norm_num)
  rw [h]
  norm_num

theorem pyIdx_11_30_22 : pyIdx 11 30 22 = 14 := by
  apply pyIdx_eval 11 30 22 (8444249301319679 / 2 ^ 49) 14
  · have h11 : round64 ((11 : ℕ) : ℚ) = ((11 : ℕ) : ℚ) := round64_natCast 11 (by norm_num)
    push_cast at h11
    rw [show ((30 : ℕ) : ℚ) / ((22 : ℕ) : ℚ) = (30 : ℚ) / 22 by norm_num]
    rw [fl_30_div_22]
    rw [show ((11 : ℕ) : ℚ) = (11 : ℚ) by norm_num, h11]
    exact fl_11_mul_step
  · norm_num
  · norm_num

/-- In the spec's scenario `N = 100`, `K = 5` the float stride is the exact
integer 20 and every sampling index is exact: `int(i * 20.0) = 20·i`. -/
theorem pyIdx_100_5 (i : ℕ) (hi : i < 5) : pyIdx i 100 5 = 20 * i := by
  apply pyIdx_eval i 100 5 ((20 * i : ℕ) : ℚ) (20 * i)
  · rw [round64_natCast i (by omega)]
    rw [show ((100 : ℕ) : ℚ) / ((5 : ℕ) : ℚ) = ((20 : ℕ) : ℚ) by norm_num]
    rw [round64_natCast 20 (by norm_num)]
    rw [show (i : ℚ) * ((20 : ℕ) : ℚ) = ((20 * i : ℕ) : ℚ) by push_cast; ring]
    exact round64_natCast (20 * i) (by omega)
  · norm_num
  · push_cast
    norm_num

/-! Concrete binary64 evaluations at the scale where the float sampler
loses injectivity: `N = 2⁵³ + 3`, `K = 2⁵³ + 2`.  The true stride
`N/K = 1 + 1/(2⁵³+2)` rounds to exactly `1.0`, and the conversion of the
index `2⁵³ + 1` to float ties to even, collapsing onto `2⁵³`. -/

theorem fl_big_step : round64 ((9007199254740995 : ℚ) / 9007199254740994) = 1 := by
  rw [round64_of_pos _ (by norm_num)]
  have h := roundPos64_eval_down ((9007199254740995 : ℚ) / 9007199254740994) (-52)
    4503599627370496 (by norm_num) (by norm_num) (by norm_num) (by norm_num)
  rw [h]
  norm_num

theorem fl_pow53 : round64 (9007199254740992 : ℚ) = 9007199254740992 :=
  round64_eq_self_of_nat _ 9007199254740992 (by norm_num) (by norm_num)

theorem fl_pow53_succ : round64 (9007199254740993 : ℚ) = 9007199254740992 := by
  rw [round64_of_pos _ (by norm_num)]
  have h := roundPos64_eval_tie_even (9007199254740993 : ℚ) 1 4503599627370496
    (by norm_num) (by norm_num) (by norm_num) (by norm_num)
  rw [h]
  norm_num

theorem pyIdx_big_lo :
    pyIdx 9007199254740992 9007199254740995 9007199254740994 = 9007199254740992 := by
  apply pyIdx_eval _ _ _ (9007199254740992 : ℚ) 9007199254740992
  · rw [show ((9007199254740992 : ℕ) : ℚ) = (9007199254740992 : ℚ) by norm_num,
      show ((9007199254740995 : ℕ) : ℚ) = (9007199254740995 : ℚ) by norm_num,
      show ((9007199254740994 : ℕ) : ℚ) = (9007199254740994 : ℚ) by norm_num]
    rw [fl_big_step, fl_pow53, mul_one, fl_pow53]
  · norm_num
  · norm_num

theorem pyIdx_big_hi :
    pyIdx 9007199254740993 9007199254740995 9007199254740994 = 9007199254740992 := by
  apply pyIdx_eval _ _ _ (9007199254740992 : ℚ) 9007199254740992
  · rw [show ((9007199254740993 : ℕ) : ℚ) = (9007199254740993 : ℚ) by norm_num,
      show ((9007199254740995 : ℕ) : ℚ) = (9007199254740995 : ℚ) by norm_num,
      show ((9007199254740994 : ℕ) : ℚ) = (9007199254740994 : ℚ) by norm_num]
    rw [fl_big_step, fl_pow53_succ, mul_one, fl_pow53]
  · norm_num
  · norm_num

theorem pyIdx_zero (N K : ℕ) : pyIdx 0 N K = 0 := by
  unfold pyIdx
  rw [Nat.cast_zero, round64_zero, zero_mul, round64_zero]
  unfold pyInt
  norm_num

/-! ### Error analysis of the float sampler

For trajectories of realistic size (`N ≤ 2²⁵`) the accumulated rounding
error of `i * (N / K)` is far below the stride's excess over 1, so the
float-computed indices are still strictly increasing and in range.  (The
bound is not vacuous: at `N ≈ 2⁵³` the indices do collide, see
`pyIdx_big_lo`/`pyIdx_big_hi`.) -/

theorem pyIdx_bounds (N K : ℕ) (hKN : K < N) (hN : N ≤ 2 ^ 25) :
    ∀ i j : ℕ, i < j → j < K →
      pyIdx i N K < pyIdx j N K ∧ pyIdx j N K < N := by
  intro i j hij hj
  have hK2 : 2 ≤ K := by omega
  have hKpos : (0 : ℚ) < (K : ℚ) := by
    have : (0 : ℕ) < K := by omega
    exact_mod_cast this
  have hNpos : (0 : ℚ) < (N : ℚ) := by
    have : (0 : ℕ) < N := by omega
    exact_mod_cast this
  set d : ℚ := (N : ℚ) / (K : ℚ) with hd
  have hdpos : 0 < d := div_pos hNpos hKpos
  have hkd : (K : ℚ) * d = (N : ℚ) := by
    rw [hd]
    field_simp
  set s : ℚ := round64 d with hs
  have hs_le : s ≤ d + d / 2 ^ 53 := round64_le d hdpos.le
  have hs_ge : d - d / 2 ^ 53 ≤ s := round64_ge d hdpos.le
  have hs0 : 0 ≤ s := round64_nonneg d hdpos.le
  have hK1 : (1 : ℚ) ≤ (K : ℚ) := by
    have : 1 ≤ K := by omega
    exact_mod_cast this
  have hd_le_n : d ≤ (N : ℚ) := by
    rw [hd]
    exact div_le_self hNpos.le hK1
  have hn25 : (N : ℚ) ≤ 2 ^ 25 := by exact_mod_cast hN
  have hk25 : (K : ℚ) ≤ 2 ^ 25 := by
    have : K ≤ 2 ^ 25 := by omega
    exact_mod_cast this
  have hd_ge : 1 + 1 / (K : ℚ) ≤ d := by
    rw [hd, le_div_iff₀ hKpos]
    have hKN' : (K : ℚ) + 1 ≤ (N : ℚ) := by
      have : K + 1 ≤ N := hKN
      exact_mod_cast this
    calc (1 + 1 / (K : ℚ)) * K = K + 1 := by field_simp
    _ ≤ (N : ℚ) := hKN'
  have hinvK : 1 / (2 ^ 25 : ℚ) ≤ 1 / (K : ℚ) :=
    one_div_le_one_div_of_le hKpos hk25
  -- the two exactly represented indices
  have hiexact : round64 ((i : ℚ)) = (i : ℚ) := round64_natCast i (by
    have : i ≤ 2 ^ 53 := by
      have : i < K := by omega
      omega
    exact this)
  have hjexact : round64 ((j : ℚ)) = (j : ℚ) := round64_natCast j (by
    have : j ≤ 2 ^ 53 := by omega
    exact this)
  have hiq0 : (0 : ℚ) ≤ (i : ℚ) := by positivity
  have hjq0 : (0 : ℚ) ≤ (j : ℚ) := by positivity
  have hiqk : (i : ℚ) ≤ (K : ℚ) := by
    have : i ≤ K := by omega
    exact_mod_cast this
  have hjqk : (j : ℚ) ≤ (K : ℚ) := by
    have : j ≤ K := by omega
    exact_mod_cast this
  have hgap : (1 : ℚ) ≤ (j : ℚ) - (i : ℚ) := by
    have : i + 1 ≤ j := hij
    have h' : ((i : ℚ)) + 1 ≤ (j : ℚ) := by exact_mod_cast this
    linarith
  -- products and their rounding
  have hais0 : 0 ≤ (i : ℚ) * s := mul_nonneg hiq0 hs0
  have hajs0 : 0 ≤ (j : ℚ) * s := mul_nonneg hjq0 hs0
  have hAi_le : round64 ((i : ℚ) * s) ≤ (i : ℚ) * s + ((i : ℚ) * s) / 2 ^ 53 :=
    round64_le _ hais0
  have hAi_ge : (i : ℚ) * s - ((i : ℚ) * s) / 2 ^ 53 ≤ round64 ((i : ℚ) * s) :=
    round64_ge _ hais0
  have hAj_ge : (j : ℚ) * s - ((j : ℚ) * s) / 2 ^ 53 ≤ round64 ((j : ℚ) * s) :=
    round64_ge _ hajs0
  have hAj_le : round64 ((j : ℚ) * s) ≤ (j : ℚ) * s + ((j : ℚ) * s) / 2 ^ 53 :=
    round64_le _ hajs0
  have hks_le : (K : ℚ) * s ≤ (N : ℚ) + 1 := by
    have h1 : (K : ℚ) * s ≤ (K : ℚ) * (d + d / 2 ^ 53) :=
      mul_le_mul_of_nonneg_left hs_le hKpos.le
    have h2 : (K : ℚ) * (d + d / 2 ^ 53) = (N : ℚ) + (N : ℚ) / 2 ^ 53 := by
      rw [mul_add, hkd, ← mul_div_assoc, hkd]
    have h3 : (N : ℚ) / 2 ^ 53 ≤ 1 := by
      rw [div_le_one (by positivity)]
      calc (N : ℚ) ≤ 2 ^ 25 := hn25
      _ ≤ 2 ^ 53 := by norm_num
    linarith
  have his_le : (i : ℚ) * s ≤ (K : ℚ) * s := mul_le_mul_of_nonneg_right hiqk hs0
  have hjs_le : (j : ℚ) * s ≤ (K : ℚ) * s := mul_le_mul_of_nonneg_right hjqk hs0
  have hstep : s ≤ (j : ℚ) * s - (i : ℚ) * s := by
    calc s = 1 * s := (one_mul s).symm
    _ ≤ ((j : ℚ) - (i : ℚ)) * s := mul_le_mul_of_nonneg_right hgap hs0
    _ = (j : ℚ) * s - (i : ℚ) * s := by ring
  have hd25 : d ≤ 2 ^ 25 := hd_le_n.trans hn25
  have hd28 : d / 2 ^ 53 ≤ 1 / 2 ^ 28 := by
    rw [div_le_div_iff (by positivity) (by positivity)]
    linarith
  -- main gap estimate: the rounded products differ by more than 1
  have hmain : round64 ((i : ℚ) * s) + 1 < round64 ((j : ℚ) * s) := by
    have hsge' : 1 + 1 / 2 ^ 25 - 1 / 2 ^ 28 ≤ s := by
      have : d ≥ 1 + 1 / 2 ^ 25 := by linarith
      linarith
    have herr : ((i : ℚ) * s + (j : ℚ) * s) / 2 ^ 53 ≤ (2 * ((N : ℚ) + 1)) / 2 ^ 53 := by
      apply div_le_div_of_nonneg_right _ (by positivity)
      linarith
    have herr2 : (2 * ((N : ℚ) + 1)) / 2 ^ 53 ≤ 1 / 2 ^ 26 := by
      rw [div_le_div_iff (by positivity) (by positivity)]
      linarith
    have hABgap : round64 ((j : ℚ) * s) - round64 ((i : ℚ) * s) ≥
        s - ((i : ℚ) * s + (j : ℚ) * s) / 2 ^ 53 := by
      have h1 : ((j : ℚ) * s) / 2 ^ 53 + ((i : ℚ) * s) / 2 ^ 53 =
          ((i : ℚ) * s + (j : ℚ) * s) / 2 ^ 53 := by ring
      linarith
    have : round64 ((j : ℚ) * s) - round64 ((i : ℚ) * s) ≥
        1 + 1 / 2 ^ 25 - 1 / 2 ^ 28 - 1 / 2 ^ 26 := by linarith
    have hfinal : (1 : ℚ) + 1 / 2 ^ 25 - 1 / 2 ^ 28 - 1 / 2 ^ 26 > 1 := by norm_num
    linarith
  -- upper bound: the last index stays strictly below N
  have hup : round64 ((j : ℚ) * s) < (N : ℚ) := by
    have hjs_le' : (j : ℚ) * s ≤ ((K : ℚ) - 1) * s := by
      have : (j : ℚ) ≤ (K : ℚ) - 1 := by
        have : j + 1 ≤ K := hj
        have h' : ((j : ℚ)) + 1 ≤ (K : ℚ) := by exact_mod_cast this
        linarith
      exact mul_le_mul_of_nonneg_right this hs0
    have hKs1 : ((K : ℚ) - 1) * s = (K : ℚ) * s - s := by ring
    have hsge1 : 1 ≤ s := by
      have : d ≥ 1 + 1 / 2 ^ 25 := by linarith
      linarith
    have hjsN : (j : ℚ) * s ≤ (N : ℚ) := by
      rw [hKs1] at hjs_le'
      linarith
    have herr : ((j : ℚ) * s) / 2 ^ 53 ≤ ((N : ℚ) + 1) / 2 ^ 53 := by
      apply div_le_div_of_nonneg_right _ (by positivity)
      linarith
    have herr2 : ((N : ℚ) + 1) / 2 ^ 53 ≤ 1 / 2 ^ 27 := by
      rw [div_le_div_iff (by positivity) (by positivity)]
      linarith
    -- j·s itself is below N − (s − 1) ≤ N − 2⁻²⁵·…; the rounding slack
    -- 2⁻²⁷ is smaller than the stride's excess over 1
    have hexcess : (j : ℚ) * s ≤ (N : ℚ) - 1 / 2 ^ 25 + 1 / 2 ^ 28 := by
      rw [hKs1] at hjs_le'
      have : s ≥ 1 + 1 / 2 ^ 25 - 1 / 2 ^ 28 := by
        have : d ≥ 1 + 1 / 2 ^ 25 := by linarith
        linarith
      linarith
    linarith
  constructor
  · -- strict monotonicity of the computed indices
    unfold pyIdx
    rw [hiexact, hjexact, ← hd, ← hs]
    unfold pyInt
    rw [if_neg (not_lt.mpr (round64_nonneg _ hais0)),
      if_neg (not_lt.mpr (round64_nonneg _ hajs0))]
    have h1 : ⌊round64 ((i : ℚ) * s)⌋ + 1 ≤ ⌊round64 ((j : ℚ) * s)⌋ := by
      apply Int.le_floor.mpr
      push_cast
      have := Int.floor_le (round64 ((i : ℚ) * s))
      linarith
    have h0 : 0 ≤ ⌊round64 ((i : ℚ) * s)⌋ :=
      Int.floor_nonneg.mpr (round64_nonneg _ hais0)
    omega
  · -- range bound
    unfold pyIdx
    rw [hjexact, ← hd, ← hs]
    unfold pyInt
    rw [if_neg (not_lt.mpr (round64_nonneg _ hajs0))]
    have h1 : ⌊round64 ((j : ℚ) * s)⌋ < (N : ℤ) := by
      apply Int.floor_lt.mpr
      push_cast
      exact hup
    have h0 : 0 ≤ ⌊round64 ((j : ℚ) * s)⌋ :=
      Int.floor_nonneg.mpr (round64_nonneg _ hajs0)
    omega

/-- On the bounded domain every computed sampling index is in range, so
Python's `valid_frames[idx]` cannot raise and the total `getD` model is
faithful there. -/
theorem pyIdx_lt (N K i : ℕ) (hKN : K < N) (hN : N ≤ 2 ^ 25) (hi : i < K) :
    pyIdx i N K < N := by
  cases i with
  | zero =>
    rw [pyIdx_zero]
    omega
  | succ m =>
    exact (pyIdx_bounds N K hKN hN m (m + 1) (Nat.lt_succ_self m) hi).2

/-! Without a size bound the index can escape the list: at `N = 2⁵³`,
`K = 2⁵³ − 1` the stride rounds up to `1 + 2⁻⁵²` and the last index
`int((K−1)·step)` computes to `N` itself, where Python's
`valid_frames[idx]` raises `IndexError`. -/

theorem fl_step_of_overflow :
    round64 ((9007199254740992 : ℚ) / 9007199254740991) = 4503599627370497 / 2 ^ 52 := by
  rw [round64_of_pos _ (by norm_num)]
  have h := roundPos64_eval_up ((9007199254740992 : ℚ) / 9007199254740991) (-52)
    4503599627370496 (by norm_num) (by norm_num) (by norm_num) (by norm_num)
  rw [h]
  norm_num

theorem fl_prod_of_overflow :
    round64 ((9007199254740990 : ℚ) * (4503599627370497 / 2 ^ 52)) = 9007199254740992 := by
  rw [round64_of_pos _ (by norm_num)]
  have h := roundPos64_eval_up ((9007199254740990 : ℚ) * (4503599627370497 / 2 ^ 52)) 0
    9007199254740991 (by norm_num) (by norm_num) (by norm_num) (by norm_num)
  rw [h]
  norm_num

/-- The escaping index itself: `int((2⁵³−2) * ((2⁵³)/(2⁵³−1)))` equals
`2⁵³ = N`, one past the last valid position. -/
theorem pyIdx_overflow :
    pyIdx 9007199254740990 9007199254740992 9007199254740991 = 9007199254740992 := by
  apply pyIdx_eval _ _ _ (9007199254740992 : ℚ) 9007199254740992
  · rw [show ((9007199254740990 : ℕ) : ℚ) = (9007199254740990 : ℚ) by norm_num,
      show ((9007199254740992 : ℕ) : ℚ) = (9007199254740992 : ℚ) by norm_num,
      show ((9007199254740991 : ℕ) : ℚ) = (9007199254740991 : ℚ) by norm_num]
    rw [fl_step_of_overflow]
    rw [round64_eq_self_of_nat (9007199254740990 : ℚ) 9007199254740990 (by norm_num)
      (by norm_num)]
    exact fl_prod_of_overflow
  · norm_num
  · norm_num

/-! ### Marker locator (`detect_green_in_frame`) -/

/-- Abstraction of one OpenCV contour of the masked frame: its
`cv2.contourArea` value together with the three moments the code reads.
The pixel pipeline (HSV threshold with fixed band, one morphological
opening and closing, `findContours`) happens inside OpenCV; the locator's
own branching starts from the resulting contour list, which is what the
model takes as input. -/
structure Contour where
  area : ℚ
  m00 : ℚ
  m10 : ℚ
  m01 : ℚ
deriving DecidableEq, Repr, Inhabited

/-- Python's `max(contours, key=cv2.contourArea)` on a non-empty list:
scan left to right, replacing the current best only on a strictly larger
key, so the first maximal element wins ties. -/
def pyMaxByArea (c : Contour) (cs : List Contour) : Contour :=
  cs.foldl (fun best x => if best.area < x.area then x else best) c

/-- `detect_green_in_frame` (`detect_green_dot.py` lines 6–36, duplicated
in `process_video_to_scenes.py` lines 28–58): if any contour exists, take
the one with the largest area; if its zeroth moment is nonzero return the
centroid `(int(M["m10"]/M["m00"]), int(M["m01"]/M["m00"]))` (binary64
divisions, truncated), otherwise report absence. -/
def detect_green_in_frame (contours : List Contour) : Option (ℤ × ℤ) :=
  match contours with
  | [] => none
  | c :: cs =>
    let largest := pyMaxByArea c cs
    if largest.m00 ≠ 0 then
      some (pyInt (round64 (largest.m10 / largest.m00)),
            pyInt (round64 (largest.m01 / largest.m00)))
    else none

/-! ### Video scanning -/

/-- A video frame, abstracted to the contour list its mask produces. -/
abbrev Frame := List Contour

/-- A video source: either `cv2.VideoCapture` fails to open it, or it
yields a finite sequence of frames in native read order. -/
inductive Video where
  | unopenable : Video
  | opened (frames : List Frame) : Video

/-- The scan loop shared by both scanners: read every frame in order,
increment the 1-based frame counter, and record a detection whenever the
locator fires. -/
def scanFrames : ℕ → List Frame → List Detection
  | _, [] => []
  | n, f :: fs =>
    match detect_green_in_frame f with
    | some (x, y) => ⟨n, x, y⟩ :: scanFrames (n + 1) fs
    | none => scanFrames (n + 1) fs

inductive ScanError where
  | sourceUnavailable : ScanError   -- `ValueError("无法打开视频文件: ...")`
  | noDetections : ScanError        -- `ValueError("警告: 没有找到绿点!")`
deriving DecidableEq, Repr

/-- `detect_green_dots_from_video` (`process_video_to_scenes.py` lines
61–133): raise if the video cannot be opened, scan every frame, raise if
no frame contained the marker, otherwise return the sampled coordinates. -/
def detect_green_dots_from_video (v : Video) (num_samples : ℕ) :
    Except ScanError (List Detection) :=
  match v with
  | .unopenable => .error .sourceUnavailable
  | .opened frames =>
    let valid_frames := scanFrames 1 frames
    if valid_frames.length = 0 then .error .noDetections
    else .ok (sample valid_frames num_samples)

/-- `detect_green_dot` (`detect_green_dot.py` lines 39–119): the same
scan and sampling, but an unopenable video or a detection-free video only
prints a message and returns the empty list. -/
def detect_green_dot (v : Video) (num_samples : ℕ) : List Detection :=
  match v with
  | .unopenable => []
  | .opened frames =>
    let valid_frames := scanFrames 1 frames
    if valid_frames.length = 0 then []
    else sample valid_frames num_samples

/-! ### Scene documents, mapping, emission -/

/-- One entry of the template's `objs` array.  Only the `type` tag and the
coordinate fields participate in the pipeline's logic; every other
key/value pair of the object rides along unchanged in `rest`. -/
structure SceneObj where
  type : String
  x : ℤ
  y : ℤ
  rest : List (String × String)
deriving DecidableEq, Repr, Inhabited

/-- A scene document: the `objs` array plus all other top-level fields. -/
structure Scene where
  objs : List SceneObj
  rest : List (String × String)
deriving DecidableEq, Repr, Inhabited

/-- Reference lookup of `process_video_to_scenes` (lines 297–301): the
first object whose `type` is `"PointSource"`. -/
def findPointSource : List SceneObj → Option SceneObj
  | [] => none
  | o :: os => if o.type = "PointSource" then some o else findPointSource os

/-- Patch loop of `process_video_to_scenes` (lines 354–358): walk `objs`,
overwrite `x`/`y` of the first `PointSource`, then `break`. -/
def updateFirstPointSource : List SceneObj → ℤ → ℤ → List SceneObj
  | [], _, _ => []
  | o :: os, nx, ny =>
    if o.type = "PointSource" then { o with x := nx, y := ny } :: os
    else o :: updateFirstPointSource os nx ny

/-- One artifact of the emission loop: deep-copy the template
(`json.loads(json.dumps(template))`) and patch its light source with one
mapped point. -/
def emitScene (template : Scene) (p : ℤ × ℤ) : Scene :=
  { template with objs := updateFirstPointSource template.objs p.1 p.2 }

/-- The single per-run vertical offset (`process_video_to_scenes` lines
317–320): `y_offset = template_y - coordinates[0]["y"]`. -/
def yOffset (templateY : ℤ) (coords : List Detection) : ℤ :=
  templateY - (coords.getD 0 default).y

/-- The mapped point of one detection (lines 350–351): the x coordinate
verbatim, the y coordinate shifted by the global offset. -/
def mapPoint (yOff : ℤ) (c : Detection) : ℤ × ℤ :=
  (c.x, c.y + yOff)

/-- The same offset computation when the template's reference y is a
binary64 float (a JSON number, as the spec's `ReferencePoint.y : number`
and the repo's own scene generators allow): Python evaluates
`template_y - first_y` in IEEE double precision, the integer detection y
being converted to float first. -/
def yOffset64 (templateY : ℚ) (coords : List Detection) : ℚ :=
  round64 (templateY - round64 (((coords.getD 0 default).y : ℚ)))

/-- The mapped point of one detection under a float offset: the integer x
verbatim, the y coordinate the IEEE sum `coord_y + y_offset`. -/
def mapPoint64 (yOff : ℚ) (c : Detection) : ℤ × ℚ :=
  (c.x, round64 (round64 ((c.y : ℚ)) + yOff))

/-- The full mapped-point sequence of a run with a float reference y. -/
def mapPoints64 (templateY : ℚ) (coords : List Detection) : List (ℤ × ℚ) :=
  coords.map (mapPoint64 (yOffset64 templateY coords))

inductive PipelineError where
  | noPointSource : PipelineError           -- "模板JSON中未找到PointSource对象"
  | scanFailed (e : ScanError) : PipelineError
deriving DecidableEq, Repr

/-- `process_video_to_scenes` (lines 239–417), restricted to the data it
computes: look up the reference light source (a hard error if absent),
scan and sample the video, compute the single y offset from the first
sampled detection, and emit one patched deep copy of the template per
sampled point.  File/directory bookkeeping and screenshots are I/O
delegated to collaborators and are not part of the model. -/
def process_video_to_scenes (template : Scene) (v : Video) (num_samples : ℕ) :
    Except PipelineError (List Scene) :=
  match findPointSource template.objs with
  | none => .error .noPointSource
  | some light_source =>
    match detect_green_dots_from_video v num_samples with
    | .error e => .error (.scanFailed e)
    | .ok coordinates =>
      let y_offset := yOffset light_source.y coordinates
      .ok (coordinates.map (fun c => emitScene template (mapPoint y_offset c)))

inductive BatchError where
  | noObjs : BatchError          -- `template['objs'][0]` raises IndexError
  | noCoordinates : BatchError   -- `coordinates[0]` raises IndexError
deriving DecidableEq, Repr

/-- Patch of `batch_generate_json.py` (lines 52–53): overwrite `x`/`y` of
`objs[0]` unconditionally, whatever its type. -/
def updateHeadObj : List SceneObj → ℤ → ℤ → List SceneObj
  | [], _, _ => []
  | o :: os, nx, ny => { o with x := nx, y := ny } :: os

/-- `batch_generate_json_files` (`batch_generate_json.py` lines 4–65):
the reference is `template['objs'][0]` — looked up with no type check —
and every output patches `objs[0]` of a deep copy of the template. -/
def batch_generate_json_files (template : Scene) (coordinates : List Detection) :
    Except BatchError (List Scene) :=
  match template.objs with
  | [] => .error .noObjs
  | light_source :: _ =>
    match coordinates with
    | [] => .error .noCoordinates
    | c0 :: _ =>
      let y_offset := light_source.y - c0.y
      .ok (coordinates.map (fun c =>
        { template with objs := updateHeadObj template.objs c.x (c.y + y_offset) }))

/-! ### Trajectories used for concrete instances -/

/-- A synthetic trajectory of `n` detections with frame indices `1..n`. -/
def rangeTraj (n : ℕ) : List Detection :=
  (List.range n).map (fun j => ⟨j + 1, 0, 0⟩)

theorem rangeTraj_length (n : ℕ) : (rangeTraj n).length = n := by
  simp [rangeTraj]

theorem rangeTraj_getD (n m : ℕ) (h : m < n) :
    (rangeTraj n).getD m default = ⟨m + 1, 0, 0⟩ := by
  unfold rangeTraj
  rw [List.getD_eq_getElem _ _ (by simpa using h)]
  simp

theorem rangeTraj_mono (n : ℕ) :
    (rangeTraj n).Pairwise (fun a b => a.frame < b.frame) := by
  unfold rangeTraj
  apply List.Pairwise.map
  · intro a b hab
    simpa using hab
  · exact List.pairwise_lt_range n

/-! ### Structure of the sampler's output -/

theorem sample_of_le (traj : List Detection) (K : ℕ) (h : traj.length ≤ K) :
    sample traj K = traj := by
  unfold sample
  rw [if_pos h]

theorem sample_of_lt (traj : List Detection) (K : ℕ) (h : K < traj.length) :
    sample traj K =
      (List.range K).map (fun i => traj.getD (pyIdx i traj.length K) default) := by
  unfold sample
  rw [if_neg (not_le.mpr h)]

theorem sample_length_of_lt (traj : List Detection) (K : ℕ) (h : K < traj.length) :
    (sample traj K).length = K := by
  rw [sample_of_lt traj K h]
  simp

theorem sample_getD_of_lt (traj : List Detection) (K i : ℕ) (h : K < traj.length)
    (hi : i < K) :
    (sample traj K).getD i default = traj.getD (pyIdx i traj.length K) default := by
  rw [sample_of_lt traj K h]
  rw [List.getD_eq_getElem _ _ (by simpa using hi)]
  simp

/-! ### Claim C1 -/

/-- C1, counterexample: the sampler does NOT always select
`Trajectory[⌊i·N/K⌋]`.  For a trajectory of length 30 and `K = 22`, entry
11 of the output is `Trajectory[14]` — Python evaluates
`int(11 * (30/22)) = int(14.999999999999998) = 14` in binary64 — while
`⌊11·30/22⌋ = 15`. -/
theorem C1_counterexample :
    (sample (rangeTraj 30) 22).getD 11 default ≠
      (rangeTraj 30).getD (11 * (rangeTraj 30).length / 22) default := by
  rw [sample_getD_of_lt _ _ _ (by rw [rangeTraj_length]; norm_num) (by norm_num)]
  rw [rangeTraj_length, pyIdx_11_30_22]
  rw [rangeTraj_getD 30 14 (by norm_num)]
  rw [show 11 * 30 / 22 = 15 by norm_num]
  rw [rangeTraj_getD 30 15 (by norm_num)]
  decide

/-- C1 (amended): for every trajectory of realistic size (`N ≤ 2²⁵`) and
every `K ≥ 1`, if `N ≤ K` the output is the trajectory unchanged;
otherwise the output has exactly `K` entries, every computed index
`int(i * (N/K))` — evaluated in binary64 floating point (`pyIdx`) — is in
range, and entry `i` is `Trajectory[int(i * (N/K))]`.  The float index
can fall one short of `⌊i·N/K⌋` (see `C1_counterexample`), though in the
spec's scenario (`N = 100`, `K = 5`) it is exact, giving source positions
0, 20, 40, 60, 80.  The size bound is not vacuous: without it the index
can reach `N` itself and the lookup raises (`pyIdx_overflow`). -/
theorem C1_sampler (traj : List Detection) (K : ℕ) (hK : 1 ≤ K)
    (hN : traj.length ≤ 2 ^ 25) :
    (traj.length ≤ K → sample traj K = traj) ∧
    (K < traj.length →
      (sample traj K).length = K ∧
      ∀ i, i < K →
        pyIdx i traj.length K < traj.length ∧
        (sample traj K).getD i default = traj.getD (pyIdx i traj.length K) default) ∧
    (∀ i, i < 5 → pyIdx i 100 5 = 20 * i) := by
  refine ⟨fun h => sample_of_le traj K h, fun h => ?_, pyIdx_100_5⟩
  exact ⟨sample_length_of_lt traj K h, fun i hi =>
    ⟨pyIdx_lt traj.length K i h hN hi, sample_getD_of_lt traj K i h hi⟩⟩

/-- Closed witness for `C1_sampler` at the spec's own scenario: a
100-detection trajectory sampled with `K = 5`. -/
theorem C1_sampler_witness :
    (sample (rangeTraj 100) 5).length = 5 ∧
    pyIdx 2 100 5 = 40 ∧ pyIdx 4 (rangeTraj 100).length 5 < (rangeTraj 100).length := by
  have h := C1_sampler (rangeTraj 100) 5 (by norm_num)
    (by rw [rangeTraj_length]; norm_num)
  have hlt : 5 < (rangeTraj 100).length := by
    rw [rangeTraj_length]
    norm_num
  refine ⟨(h.2.1 hlt).1, ?_, ((h.2.1 hlt).2 4 (by norm_num)).1⟩
  have h2 := h.2.2 2 (by norm_num)
  simpa using h2

/-! ### Claim C3 -/

/-- C3, counterexample: the sampled frame indices are NOT strictly
increasing for every trajectory with strictly increasing frames and every
`K ≥ 1`.  At `N = 2⁵³ + 3`, `K = 2⁵³ + 2` the float stride
`fl(N/K) = 1.0` and the index conversion `float(2⁵³ + 1)` ties to even,
so output entries `2⁵³` and `2⁵³ + 1` both select trajectory position
`2⁵³`: a duplicated frame index. -/
theorem C3_counterexample :
    (rangeTraj 9007199254740995).Pairwise (fun a b => a.frame < b.frame) ∧
    1 ≤ 9007199254740994 ∧
    ¬ (sample (rangeTraj 9007199254740995) 9007199254740994).Pairwise
        (fun a b => a.frame < b.frame) := by
  refine ⟨rangeTraj_mono _, by norm_num, ?_⟩
  intro hp
  have hKlt : 9007199254740994 < (rangeTraj 9007199254740995).length := by
    rw [rangeTraj_length]
    norm_num
  have hlen : (sample (rangeTraj 9007199254740995) 9007199254740994).length =
      9007199254740994 := sample_length_of_lt _ _ hKlt
  have h1 : (9007199254740992 : ℕ) <
      (sample (rangeTraj 9007199254740995) 9007199254740994).length := by
    rw [hlen]
    norm_num
  have h2 : (9007199254740993 : ℕ) <
      (sample (rangeTraj 9007199254740995) 9007199254740994).length := by
    rw [hlen]
    norm_num
  have hlt := List.pairwise_iff_getElem.mp hp 9007199254740992 9007199254740993 h1 h2
    (by norm_num)
  have e1 : (sample (rangeTraj 9007199254740995) 9007199254740994).getD
      9007199254740992 default = ⟨9007199254740993, 0, 0⟩ := by
    rw [sample_getD_of_lt _ _ _ hKlt (by norm_num)]
    rw [rangeTraj_length, pyIdx_big_lo]
    exact rangeTraj_getD _ _ (by norm_num)
  have e2 : (sample (rangeTraj 9007199254740995) 9007199254740994).getD
      9007199254740993 default = ⟨9007199254740993, 0, 0⟩ := by
    rw [sample_getD_of_lt _ _ _ hKlt (by norm_num)]
    rw [rangeTraj_length, pyIdx_big_hi]
    exact rangeTraj_getD _ _ (by norm_num)
  rw [List.getD_eq_getElem _ _ h1] at e1
  rw [List.getD_eq_getElem _ _ h2] at e2
  rw [e1, e2] at hlt
  simp at hlt

/-- C3 (amended): for every trajectory of realistic size (`N ≤ 2²⁵`)
whose frame indices are strictly increasing and every `K ≥ 1`, the
sampled frame indices are strictly increasing (no reordering, no
duplicates): the float stride `fl(N/K)` exceeds 1 by more than the
accumulated rounding error of `i * stride`. -/
theorem C3_sample_mono (traj : List Detection) (K : ℕ) (hK : 1 ≤ K)
    (hN : traj.length ≤ 2 ^ 25)
    (hmono : traj.Pairwise (fun a b => a.frame < b.frame)) :
    (sample traj K).Pairwise (fun a b => a.frame < b.frame) := by
  by_cases hle : traj.length ≤ K
  · rw [sample_of_le traj K hle]
    exact hmono
  · push_neg at hle
    apply List.pairwise_iff_getElem.mpr
    intro i j hi hj hij
    have hlen := sample_length_of_lt traj K hle
    rw [hlen] at hi hj
    obtain ⟨hstrict, hrange⟩ := pyIdx_bounds traj.length K hle hN i j hij hj
    have hpi : pyIdx i traj.length K < traj.length := lt_trans hstrict hrange
    have e1 : (sample traj K).getD i default = traj.getD (pyIdx i traj.length K) default :=
      sample_getD_of_lt traj K i hle hi
    have e2 : (sample traj K).getD j default = traj.getD (pyIdx j traj.length K) default :=
      sample_getD_of_lt traj K j hle hj
    rw [List.getD_eq_getElem _ _ (by rw [hlen]; exact hi)] at e1
    rw [List.getD_eq_getElem _ _ (by rw [hlen]; exact hj)] at e2
    rw [List.getD_eq_getElem _ _ hpi] at e1
    rw [List.getD_eq_getElem _ _ hrange] at e2
    rw [e1, e2]
    exact List.pairwise_iff_getElem.mp hmono _ _ hpi hrange hstrict

/-- Closed witness for `C3_sample_mono`: the 100-detection trajectory with
`K = 7`. -/
theorem C3_sample_mono_witness :
    (sample (rangeTraj 100) 7).Pairwise (fun a b => a.frame < b.frame) :=
  C3_sample_mono (rangeTraj 100) 7 (by norm_num)
    (by rw [rangeTraj_length]; norm_num) (rangeTraj_mono 100)

/-! ### Claim C10 -/

/-- C10: for every non-empty trajectory and every `K ≥ 1`, the first
sampled entry is the first trajectory entry (in the strided branch
`int(0 * step) = 0`), so the vertical offset is anchored to the earliest
detection of the scan regardless of `K`. -/
theorem C10_first_sample (traj : List Detection) (K : ℕ) (h : traj ≠ [])
    (hK : 1 ≤ K) :
    (sample traj K).getD 0 default = traj.getD 0 default ∧
    ∀ templateY : ℤ,
      yOffset templateY (sample traj K) = templateY - (traj.getD 0 default).y := by
  have hfirst : (sample traj K).getD 0 default = traj.getD 0 default := by
    by_cases hle : traj.length ≤ K
    · rw [sample_of_le traj K hle]
    · push_neg at hle
      rw [sample_getD_of_lt traj K 0 hle (by omega), pyIdx_zero]
  refine ⟨hfirst, fun templateY => ?_⟩
  unfold yOffset
  rw [hfirst]

/-- Closed witness for `C10_first_sample`: the 100-detection trajectory
with `K = 5` anchors the offset at detection `⟨1, 0, 0⟩`. -/
theorem C10_first_sample_witness :
    (sample (rangeTraj 100) 5).getD 0 default = (rangeTraj 100).getD 0 default ∧
    ∀ templateY : ℤ,
      yOffset templateY (sample (rangeTraj 100) 5) =
        templateY - ((rangeTraj 100).getD 0 default).y :=
  C10_first_sample (rangeTraj 100) 5
    (by rw [← List.length_pos_iff_ne_nil, rangeTraj_length]; norm_num) (by norm_num)

/-! ### Claim C2 -/

theorem round64_int_detection_y : round64 (((556 : ℤ) : ℚ)) = (556 : ℚ) := by
  rw [show (((556 : ℤ) : ℚ)) = (556 : ℚ) by norm_num]
  exact round64_eq_self_of_nat _ 556 (by norm_num) (by norm_num)

/-- C2, counterexample: the anchor `MappedPoint[0].y == ReferencePoint.y`
does NOT hold exactly for every reference point.  The spec types the
reference y as a number; with the binary64 reference `fl(4/3) =
6004799503160661·2⁻⁵²` and first detection y `556`, Python computes
`y_offset = fl(4/3) - 556 = -4878899596318037·2⁻⁴³` (an inexact
subtraction) and `556 + y_offset = 1.3333333333333712`, which is 171 ulps
away from the reference. -/
theorem C2_counterexample :
    ((mapPoints64 (6004799503160661 / 2 ^ 52) [⟨1, 398, 556⟩]).getD 0 (0, 0)).2 ≠
      (6004799503160661 / 2 ^ 52 : ℚ) := by
  have hoff : yOffset64 (6004799503160661 / 2 ^ 52) [⟨1, 398, 556⟩] =
      -(4878899596318037 / 2 ^ 43) := by
    unfold yOffset64
    rw [show ((([⟨1, 398, 556⟩] : List Detection).getD 0 default).y : ℚ) =
      ((556 : ℤ) : ℚ) from rfl]
    rw [round64_int_detection_y]
    rw [show ((6004799503160661 / 2 ^ 52 : ℚ) - 556) =
      -(2497996593314835115 / 2 ^ 52) by norm_num]
    rw [round64_neg]
    rw [round64_of_pos _ (by norm_num)]
    have h := roundPos64_eval_down ((2497996593314835115 : ℚ) / 2 ^ 52) (-43)
      4878899596318037 (by norm_num) (by norm_num) (by norm_num) (by norm_num)
    rw [h]
    norm_num
  have hmap : (mapPoints64 (6004799503160661 / 2 ^ 52) [⟨1, 398, 556⟩]).getD 0 (0, 0) =
      mapPoint64 (-(4878899596318037 / 2 ^ 43)) ⟨1, 398, 556⟩ := by
    unfold mapPoints64
    rw [hoff]
    rfl
  rw [hmap]
  unfold mapPoint64
  rw [show (((⟨1, 398, 556⟩ : Detection).y : ℚ)) = ((556 : ℤ) : ℚ) from rfl]
  rw [round64_int_detection_y]
  rw [show ((556 : ℚ) + -(4878899596318037 / 2 ^ 43)) =
    (11728124029611 / 2 ^ 43 : ℚ) by norm_num]
  rw [round64_of_pos _ (by norm_num)]
  rw [roundPos64_eval_exact ((11728124029611 : ℚ) / 2 ^ 43) (-52) 6004799503160832
    (by norm_num) (by norm_num) (by norm_num)]
  norm_num

/-- C2 (amended): for every non-empty sample set and binary64 reference
y, the mapper computes the single offset `fl(refY − SampleSet[0].y)` once
per run and maps every point `j` to
`(SampleSet[j].x, fl(SampleSet[j].y + offset))`, the integer x passed
through verbatim.  When the reference y is an integer of moderate
magnitude — as in the shipped template, `y = 625` — every step is exact
and `MappedPoint[0].y` equals the reference y exactly; for a reference
with a fractional part the anchor can be off by rounding
(`C2_counterexample`).  The spec's scenario — reference y `625`, first
detection `(398, 556)`, offset `69`, `(420, 560)` mapped to `(420, 629)`
— holds exactly. -/
theorem C2_mapper (refY : ℚ) (samples : List Detection) (h : samples ≠ []) :
    (∀ j, j < samples.length →
      (mapPoints64 refY samples).getD j (0, 0) =
        ((samples.getD j default).x,
         round64 (round64 (((samples.getD j default).y : ℚ)) + yOffset64 refY samples))) ∧
    (∀ n : ℤ, refY = (n : ℚ) → n.natAbs ≤ 2 ^ 50 →
      (samples.getD 0 default).y.natAbs ≤ 2 ^ 50 →
      ((mapPoints64 refY samples).getD 0 (0, 0)).2 = refY) ∧
    yOffset64 625 [⟨1, 398, 556⟩, ⟨2, 420, 560⟩] = 69 ∧
    mapPoint64 (yOffset64 625 [⟨1, 398, 556⟩, ⟨2, 420, 560⟩]) ⟨2, 420, 560⟩ =
      (420, 629) := by
  obtain ⟨c0, rest, rfl⟩ : ∃ c0 rest, samples = c0 :: rest := by
    cases samples with
    | nil => exact absurd rfl h
    | cons a l => exact ⟨a, l, rfl⟩
  have hformula : ∀ j, j < (c0 :: rest).length →
      (mapPoints64 refY (c0 :: rest)).getD j (0, 0) =
        (((c0 :: rest).getD j default).x,
         round64 (round64 ((((c0 :: rest).getD j default).y : ℚ)) +
           yOffset64 refY (c0 :: rest))) := by
    intro j hj
    unfold mapPoints64
    rw [List.getD_eq_getElem _ _ (by simpa using hj)]
    rw [List.getElem_map]
    rw [List.getD_eq_getElem _ _ hj]
    rfl
  have hoff625 : yOffset64 625 [⟨1, 398, 556⟩, ⟨2, 420, 560⟩] = 69 := by
    unfold yOffset64
    rw [show ((([⟨1, 398, 556⟩, ⟨2, 420, 560⟩] : List Detection).getD 0 default).y : ℚ) =
      ((556 : ℤ) : ℚ) from rfl]
    rw [round64_int_detection_y]
    rw [show ((625 : ℚ) - 556) = (69 : ℚ) by norm_num]
    exact round64_eq_self_of_nat _ 69 (by norm_num) (by norm_num)
  refine ⟨hformula, ?_, hoff625, ?_⟩
  · intro n hrefl hn hy0
    have h0 := hformula 0 (by simp)
    rw [h0]
    set y0 : ℤ := ((c0 :: rest).getD 0 default).y with hy0def
    have hy0cast : round64 ((y0 : ℚ)) = (y0 : ℚ) :=
      round64_intCast y0 (by omega)
    have hoffv : yOffset64 refY (c0 :: rest) = (((n - y0 : ℤ)) : ℚ) := by
      unfold yOffset64
      rw [← hy0def, hy0cast, hrefl]
      rw [show ((n : ℚ) - (y0 : ℚ)) = (((n - y0 : ℤ)) : ℚ) by push_cast; ring]
      exact round64_intCast (n - y0) (by omega)
    rw [hoffv]
    have hsum : ((y0 : ℚ)) + (((n - y0 : ℤ)) : ℚ) = ((n : ℚ)) := by
      push_cast
      ring
    rw [hy0cast, hsum, round64_intCast n (by omega), hrefl]
  · rw [hoff625]
    unfold mapPoint64
    rw [show (((⟨2, 420, 560⟩ : Detection).y : ℚ)) = ((560 : ℤ) : ℚ) from rfl]
    rw [show (((560 : ℤ)) : ℚ) = (560 : ℚ) by norm_num]
    rw [round64_eq_self_of_nat (560 : ℚ) 560 (by norm_num) (by norm_num)]
    rw [show ((560 : ℚ) + 69) = (629 : ℚ) by norm_num]
    rw [round64_eq_self_of_nat (629 : ℚ) 629 (by norm_num) (by norm_num)]

/-- Closed witness for `C2_mapper` at the spec's scenario, including the
exact integer anchor `MappedPoint[0].y = 625`. -/
theorem C2_mapper_witness :
    yOffset64 625 [⟨1, 398, 556⟩, ⟨2, 420, 560⟩] = 69 ∧
    ((mapPoints64 625 [⟨1, 398, 556⟩, ⟨2, 420, 560⟩]).getD 0 (0, 0)).2 = 625 ∧
    (mapPoints64 625 [⟨1, 398, 556⟩, ⟨2, 420, 560⟩]).getD 1 (0, 0) = (420, 629) := by
  have h := C2_mapper 625 [⟨1, 398, 556⟩, ⟨2, 420, 560⟩] (by simp)
  obtain ⟨hj, hexact, hoff, hmap⟩ := h
  refine ⟨hoff, ?_, ?_⟩
  · exact hexact 625 (by norm_num) (by norm_num) (by norm_num)
  · have h1 := hj 1 (by norm_num)
    rw [h1, hoff]
    rw [show (([⟨1, 398, 556⟩, ⟨2, 420, 560⟩] : List Detection).getD 1 default) =
      (⟨2, 420, 560⟩ : Detection) from rfl]
    rw [show (((⟨2, 420, 560⟩ : Detection).y : ℚ)) = ((560 : ℤ) : ℚ) from rfl]
    rw [show (((560 : ℤ)) : ℚ) = (560 : ℚ) by norm_num]
    rw [round64_eq_self_of_nat (560 : ℚ) 560 (by norm_num) (by norm_num)]
    rw [show ((560 : ℚ) + 69) = (629 : ℚ) by norm_num]
    rw [round64_eq_self_of_nat (629 : ℚ) 629 (by norm_num) (by norm_num)]

/-! ### Claims C4 and C5: the scene emitter -/

theorem updateFirstPointSource_split (pre post : List SceneObj) (ps : SceneObj)
    (nx ny : ℤ) (hpre : ∀ o ∈ pre, o.type ≠ "PointSource")
    (hps : ps.type = "PointSource") :
    updateFirstPointSource (pre ++ ps :: post) nx ny =
      pre ++ { ps with x := nx, y := ny } :: post := by
  induction pre with
  | nil =>
    simp only [List.nil_append]
    unfold updateFirstPointSource
    rw [if_pos hps]
  | cons o os ih =>
    simp only [List.cons_append]
    unfold updateFirstPointSource
    rw [if_neg (hpre o (by simp))]
    rw [ih (fun o' ho' => hpre o' (by simp [ho']))]

/-- C4: each emitted artifact is the template with, only, the designated
light source's coordinate fields replaced by the mapped point: every
object before the first `PointSource`, every object after it, the
untouched fields of the light source itself, and every other top-level
field of the template are carried through unchanged. -/
theorem C4_emit (t : Scene) (pre post : List SceneObj) (ps : SceneObj) (p : ℤ × ℤ)
    (hsplit : t.objs = pre ++ ps :: post)
    (hpre : ∀ o ∈ pre, o.type ≠ "PointSource")
    (hps : ps.type = "PointSource") :
    emitScene t p =
      { objs := pre ++ { ps with x := p.1, y := p.2 } :: post, rest := t.rest } := by
  unfold emitScene
  rw [hsplit, updateFirstPointSource_split pre post ps p.1 p.2 hpre hps]

/-- Closed witness for `C4_emit`: a template with a mirror, a light
source, and a screen; only the light source's coordinates change. -/
theorem C4_emit_witness :
    emitScene
      { objs := [⟨"Mirror", 1, 2, [("p", "a")]⟩, ⟨"PointSource", 400, 625, []⟩,
                 ⟨"Blocker", 7, 8, []⟩],
        rest := [("name", "scene"), ("width", "1200")] } (420, 629) =
      { objs := [⟨"Mirror", 1, 2, [("p", "a")]⟩, ⟨"PointSource", 420, 629, []⟩,
                 ⟨"Blocker", 7, 8, []⟩],
        rest := [("name", "scene"), ("width", "1200")] } := by
  have h := C4_emit
    { objs := [⟨"Mirror", 1, 2, [("p", "a")]⟩, ⟨"PointSource", 400, 625, []⟩,
               ⟨"Blocker", 7, 8, []⟩],
      rest := [("name", "scene"), ("width", "1200")] }
    [⟨"Mirror", 1, 2, [("p", "a")]⟩] [⟨"Blocker", 7, 8, []⟩]
    ⟨"PointSource", 400, 625, []⟩ (420, 629) rfl (by decide) rfl
  simpa using h

/-- C5: the emitter is a pure function — re-invocation on identical
inputs yields the identical artifact — and two artifacts built from the
same template with different mapped points agree on every top-level
field, on the length and order of `objs`, and on each object's type tag
and pass-through fields; objects that are not the designated light source
are identical in full. -/
theorem C5_emitter (t : Scene) (p q : ℤ × ℤ) :
    emitScene t p = emitScene t p ∧
    (emitScene t p).rest = (emitScene t q).rest ∧
    List.Forall₂
      (fun o o' => o.type = o'.type ∧ o.rest = o'.rest ∧
        (o.type ≠ "PointSource" → o = o'))
      (emitScene t p).objs (emitScene t q).objs := by
  refine ⟨rfl, rfl, ?_⟩
  unfold emitScene
  simp only
  induction t.objs with
  | nil => exact List.Forall₂.nil
  | cons o os ih =>
    unfold updateFirstPointSource
    by_cases hps : o.type = "PointSource"
    · rw [if_pos hps, if_pos hps]
      apply List.Forall₂.cons
      · exact ⟨rfl, rfl, fun hne => absurd hps hne⟩
      · apply List.forall₂_same.mpr
        intro x _
        exact ⟨rfl, rfl, fun _ => rfl⟩
    · rw [if_neg hps, if_neg hps]
      exact List.Forall₂.cons ⟨rfl, rfl, fun _ => rfl⟩ ih

/-! ### Claims C6 and C7: scanner failure modes -/

/-- C6, counterexample: the standalone scanner `detect_green_dot` does
NOT fail on a video that cannot be opened — it returns an empty result
(after printing a message), exactly what the claim says must not
happen. -/
theorem C6_counterexample : detect_green_dot Video.unopenable 20 = [] := rfl

/-- C6 (amended): an unopenable video makes the pipeline scanner
`detect_green_dots_from_video` raise, so `process_video_to_scenes` aborts
with nothing emitted (after the template reference check); the standalone
`detect_green_dot`, however, returns an empty list instead of failing. -/
theorem C6_unopenable (t : Scene) (K : ℕ) :
    detect_green_dots_from_video Video.unopenable K =
      Except.error ScanError.sourceUnavailable ∧
    process_video_to_scenes t Video.unopenable K =
      (if findPointSource t.objs = none then Except.error PipelineError.noPointSource
       else Except.error (PipelineError.scanFailed ScanError.sourceUnavailable)) ∧
    detect_green_dot Video.unopenable K = [] := by
  refine ⟨rfl, ?_, rfl⟩
  unfold process_video_to_scenes
  cases hfind : findPointSource t.objs with
  | none => simp [hfind]
  | some ls => simp [hfind, detect_green_dots_from_video]

/-- C7, counterexample: on a video that opens but never shows the marker,
the pipeline scan does NOT succeed with an empty trajectory — the scanner
itself raises the no-detections error. -/
theorem C7_counterexample :
    detect_green_dots_from_video (Video.opened [[]]) 20 =
      Except.error ScanError.noDetections ∧
    ∀ traj : List Detection,
      detect_green_dots_from_video (Video.opened [[]]) 20 ≠ Except.ok traj := by
  refine ⟨rfl, fun traj h => ?_⟩
  simp [detect_green_dots_from_video, scanFrames, detect_green_in_frame] at h

/-- C7 (amended): when the video opens but the marker is never found, the
pipeline scanner itself raises the no-detections error — so the pipeline
emits zero artifacts — while the standalone `detect_green_dot` is the one
that returns an empty trajectory without failing. -/
theorem C7_no_marker (frames : List Frame) (K : ℕ) (t : Scene)
    (hscan : scanFrames 1 frames = []) :
    detect_green_dots_from_video (Video.opened frames) K =
      Except.error ScanError.noDetections ∧
    detect_green_dot (Video.opened frames) K = [] ∧
    process_video_to_scenes t (Video.opened frames) K =
      (if findPointSource t.objs = none then Except.error PipelineError.noPointSource
       else Except.error (PipelineError.scanFailed ScanError.noDetections)) := by
  have h1 : detect_green_dots_from_video (Video.opened frames) K =
      Except.error ScanError.noDetections := by
    simp [detect_green_dots_from_video, hscan]
  refine ⟨h1, ?_, ?_⟩
  · simp [detect_green_dot, hscan]
  · unfold process_video_to_scenes
    cases hfind : findPointSource t.objs with
    | none => simp [hfind]
    | some ls => simp [hfind, h1]

/-- Closed witness for `C7_no_marker`: a one-frame video whose frame
yields no contours. -/
theorem C7_no_marker_witness :
    detect_green_dots_from_video (Video.opened [[]]) 7 =
      Except.error ScanError.noDetections ∧
    detect_green_dot (Video.opened [[]]) 7 = [] := by
  have h := C7_no_marker [[]] 7 { objs := [], rest := [] } rfl
  exact ⟨h.1, h.2.1⟩

/-! ### Claim C8: the reference lookup -/

/-- A template whose only object is a mirror: no light source in sight. -/
def mirrorTemplate : Scene :=
  { objs := [⟨"Mirror", 400, 625, []⟩], rest := [] }

/-- C8, counterexample: a template with no recognizable light-source
object does NOT always abort the pipeline before emission —
`batch_generate_json_files` performs no type check, silently uses the
mirror at `objs[0]` as the reference, and happily emits an artifact. -/
theorem C8_counterexample :
    findPointSource mirrorTemplate.objs = none ∧
    batch_generate_json_files mirrorTemplate [⟨1, 398, 556⟩] =
      Except.ok [{ objs := [⟨"Mirror", 398, 625, []⟩], rest := [] }] := by
  exact ⟨rfl, rfl⟩

/-- C8 (amended): `process_video_to_scenes` does fail hard, before any
artifact, when the template has no `PointSource`; but
`batch_generate_json_files` performs no reference recognition at all — it
reads `objs[0]` whatever its type, fails only when `objs` is empty, and
otherwise emits artifacts. -/
theorem C8_reference_check (t : Scene) (v : Video) (K : ℕ) (coords : List Detection)
    (hnops : findPointSource t.objs = none) :
    process_video_to_scenes t v K = Except.error PipelineError.noPointSource ∧
    (t.objs = [] → batch_generate_json_files t coords = Except.error BatchError.noObjs) ∧
    (∀ o os c cs, t.objs = o :: os → coords = c :: cs →
      batch_generate_json_files t coords =
        Except.ok (coords.map (fun d =>
          { t with objs := updateHeadObj t.objs d.x (d.y + (o.y - c.y)) }))) := by
  refine ⟨?_, ?_, ?_⟩
  · unfold process_video_to_scenes
    rw [hnops]
  · intro h
    unfold batch_generate_json_files
    rw [h]
  · intro o os c cs ho hc
    unfold batch_generate_json_files
    rw [ho, hc]

/-- Closed witness for `C8_reference_check` at the mirror template. -/
theorem C8_reference_check_witness :
    process_video_to_scenes mirrorTemplate Video.unopenable 20 =
      Except.error PipelineError.noPointSource ∧
    batch_generate_json_files mirrorTemplate [⟨1, 398, 556⟩] =
      Except.ok [{ objs := [⟨"Mirror", 398, 625, []⟩], rest := [] }] := by
  have h := C8_reference_check mirrorTemplate Video.unopenable 20 [⟨1, 398, 556⟩] rfl
  refine ⟨h.1, ?_⟩
  have h3 := h.2.2 ⟨"Mirror", 400, 625, []⟩ [] ⟨1, 398, 556⟩ [] rfl rfl
  rw [h3]
  rfl

/-! ### Claim C9: the marker locator -/

theorem pyMaxByArea_spec (c : Contour) (cs : List Contour) :
    (pyMaxByArea c cs = c ∨ pyMaxByArea c cs ∈ cs) ∧
    c.area ≤ (pyMaxByArea c cs).area ∧
    ∀ x ∈ cs, x.area ≤ (pyMaxByArea c cs).area := by
  induction cs generalizing c with
  | nil => exact ⟨Or.inl rfl, le_refl _, by simp⟩
  | cons x xs ih =>
    have hfold : pyMaxByArea c (x :: xs) =
        pyMaxByArea (if c.area < x.area then x else c) xs := rfl
    obtain ⟨hmem, hge, hall⟩ := ih (if c.area < x.area then x else c)
    have hc_le : c.area ≤ (if c.area < x.area then x else c).area := by
      by_cases hc : c.area < x.area
      · rw [if_pos hc]
        exact hc.le
      · rw [if_neg hc]
    have hx_le : x.area ≤ (if c.area < x.area then x else c).area := by
      by_cases hc : c.area < x.area
      · rw [if_pos hc]
      · rw [if_neg hc]
        exact le_of_not_lt hc
    refine ⟨?_, ?_, ?_⟩
    · rw [hfold]
      by_cases hc : c.area < x.area
      · rw [if_pos hc] at hmem ⊢
        rcases hmem with h | h
        · right
          rw [h]
          exact List.mem_cons_self x xs
        · right
          exact List.mem_cons_of_mem x h
      · rw [if_neg hc] at hmem ⊢
        rcases hmem with h | h
        · left
          exact h
        · right
          exact List.mem_cons_of_mem x h
    · rw [hfold]
      exact le_trans hc_le hge
    · intro y hy
      rw [hfold]
      rcases List.mem_cons.mp hy with rfl | hy'
      · exact le_trans hx_le hge
      · exact hall y hy'

/-- C9: for every contour list the locator returns either a centroid or
an explicit absence signal (it is a total function); it signals absence
exactly when the list is empty or the selected largest contour's zeroth
moment is exactly zero, and otherwise returns the truncated binary64
moment centroid of a contour of maximal area. -/
theorem C9_locator (contours : List Contour) :
    match contours with
    | [] => detect_green_in_frame contours = none
    | c :: cs =>
      (pyMaxByArea c cs ∈ contours ∧
        ∀ x ∈ contours, x.area ≤ (pyMaxByArea c cs).area) ∧
      ((pyMaxByArea c cs).m00 = 0 → detect_green_in_frame contours = none) ∧
      ((pyMaxByArea c cs).m00 ≠ 0 → detect_green_in_frame contours =
        some (pyInt (round64 ((pyMaxByArea c cs).m10 / (pyMaxByArea c cs).m00)),
              pyInt (round64 ((pyMaxByArea c cs).m01 / (pyMaxByArea c cs).m00)))) := by
  cases contours with
  | nil => rfl
  | cons c cs =>
    obtain ⟨hmem, hge, hall⟩ := pyMaxByArea_spec c cs
    refine ⟨⟨?_, ?_⟩, ?_, ?_⟩
    · rcases hmem with h | h
      · rw [h]
        exact List.mem_cons_self c cs
      · exact List.mem_cons_of_mem c h
    · intro x hx
      rcases List.mem_cons.mp hx with rfl | hx'
      · exact hge
      · exact hall x hx'
    · intro h0
      show (if (pyMaxByArea c cs).m00 ≠ 0 then
          some (pyInt (round64 ((pyMaxByArea c cs).m10 / (pyMaxByArea c cs).m00)),
                pyInt (round64 ((pyMaxByArea c cs).m01 / (pyMaxByArea c cs).m00)))
        else none) = none
      rw [if_neg (not_not_intro h0)]
    · intro h0
      show (if (pyMaxByArea c cs).m00 ≠ 0 then
          some (pyInt (round64 ((pyMaxByArea c cs).m10 / (pyMaxByArea c cs).m00)),
                pyInt (round64 ((pyMaxByArea c cs).m01 / (pyMaxByArea c cs).m00)))
        else none) = some (pyInt (round64 ((pyMaxByArea c cs).m10 / (pyMaxByArea c cs).m00)),
              pyInt (round64 ((pyMaxByArea c cs).m01 / (pyMaxByArea c cs).m00)))
      rw [if_pos h0]

/-- Closed witness for `C9_locator`: the empty frame, a frame with one
degenerate contour, and a frame where a 10×-area contour beats a small
one and yields centroid `(5, 3)`. -/
theorem C9_locator_witness :
    detect_green_in_frame [] = none ∧
    detect_green_in_frame [⟨4, 0, 0, 0⟩] = none ∧
    detect_green_in_frame [⟨4, 2, 10, 6⟩, ⟨1, 1, 1, 1⟩] = some (5, 3) := by
  have h0 := C9_locator ([] : List Contour)
  have h1 := C9_locator [⟨4, 0, 0, 0⟩]
  have h2 := C9_locator [⟨4, 2, 10, 6⟩, ⟨1, 1, 1, 1⟩]
  have hmax1 : pyMaxByArea (⟨4, 0, 0, 0⟩ : Contour) [] = ⟨4, 0, 0, 0⟩ := rfl
  have hmax2 : pyMaxByArea (⟨4, 2, 10, 6⟩ : Contour) [⟨1, 1, 1, 1⟩] = ⟨4, 2, 10, 6⟩ := by
    unfold pyMaxByArea
    simp only [List.foldl_cons, List.foldl_nil]
    rw [if_neg (by norm_num)]
  refine ⟨h0, ?_, ?_⟩
  · apply h1.2.1
    rw [hmax1]
  · have h2' := h2.2.2 (by rw [hmax2]; norm_num)
    rw [h2'] at *
    rw [hmax2]
    have e10 : ((⟨4, 2, 10, 6⟩ : Contour).m10 / (⟨4, 2, 10, 6⟩ : Contour).m00) = (5 : ℚ) := by
      norm_num
    have e01 : ((⟨4, 2, 10, 6⟩ : Contour).m01 / (⟨4, 2, 10, 6⟩ : Contour).m00) = (3 : ℚ) := by
      norm_num
    rw [e10, e01]
    rw [round64_eq_self_of_nat (5 : ℚ) 5 (by norm_num) (by norm_num)]
    rw [round64_eq_self_of_nat (3 : ℚ) 3 (by norm_num) (by norm_num)]
    unfold pyInt
    rw [if_neg (by norm_num), if_neg (by norm_num)]
    norm_num

end Optics
